import Mathlib

/-!
A verification development for a small file-backed blog-post store
(`app.py`).  The store is an ordered list of posts persisted as a JSON
array in one file; the operations modelled here are `load_posts`,
`find_post_index`, the POST branch of `update`, the POST branch of `add`,
and `delete`, translated directly from the source.
-/

namespace BlogApp

/-- One blog entry, a JSON object with keys `id`, `author`, `title`,
`content`.  JSON integers are modelled as `Int`, strings as `String`. -/
structure Post where
  id : Int
  author : String
  title : String
  content : String
deriving Repr, DecidableEq

/-- The store: the ordered list of posts held in the backing file. -/
abbrev Store := List Post

/-- Whitespace as recognised by Python `str.strip()` (ASCII range). -/
def isSpace (ch : Char) : Bool :=
  ch = ' ' ∨ ch = '\t' ∨ ch = '\n' ∨ ch = '\r' ∨ ch = '\x0b' ∨ ch = '\x0c'

/-- Remove leading and trailing whitespace from a character list. -/
def stripList (l : List Char) : List Char :=
  (l.dropWhile isSpace).rdropWhile isSpace

/-- Python `s.strip()`: the string with surrounding whitespace removed. -/
def strip (s : String) : String :=
  String.mk (stripList s.data)

/-- `find_post_index(posts, post_id)` from `app.py`: index of the first
post whose `id` equals `post_id`, or `None`. -/
def find_post_index (posts : Store) (post_id : Int) : Option Nat :=
  match posts with
  | [] => none
  | p :: ps =>
    if p.id = post_id then some 0
    else (find_post_index ps post_id).map (fun n => n + 1)

/-- Python `max(g, default=0)`: maximum of the list, or `0` when empty. -/
def max_default (l : List Int) (d : Int) : Int :=
  match l with
  | [] => d
  | x :: xs => xs.foldl max x

/-- The id assigned by `add`: `max((p["id"] for p in posts), default=0) + 1`. -/
def next_id (posts : Store) : Int :=
  max_default (posts.map Post.id) 0 + 1

/-- Outcome of the `add` POST handler (redirect vs. re-rendered form). -/
inductive AddOutcome where
  | validationError
  | created (p : Post)
deriving Repr, DecidableEq

/-- Outcome of the `update` POST handler. -/
inductive UpdateOutcome where
  | notFound
  | validationError
  | ok
deriving Repr, DecidableEq

/-- In-place field assignment `posts[idx]["author"] = a` (and title,
content) at index `idx`; out-of-range indices leave the list unchanged. -/
def update_at (posts : Store) (idx : Nat) (a t c : String) : Store :=
  match posts, idx with
  | [], _ => []
  | p :: ps, 0 => { p with author := a, title := t, content := c } :: ps
  | p :: ps, n + 1 => p :: update_at ps n a t c

/-- POST branch of `update(post_id)` from `app.py`.  Returns the file
contents after the request, whether `save_posts` ran, and the outcome.
The handler first looks the id up (404 when absent), then strips the
three form fields, re-renders with an error when any is empty, and
otherwise assigns the three fields in place and saves. -/
def update (posts : Store) (post_id : Int) (author title content : String) :
    Store × Bool × UpdateOutcome :=
  match find_post_index posts post_id with
  | none => (posts, false, UpdateOutcome.notFound)
  | some idx =>
    let a := strip author
    let t := strip title
    let c := strip content
    if a = "" ∨ t = "" ∨ c = "" then
      (posts, false, UpdateOutcome.validationError)
    else
      (update_at posts idx a t c, true, UpdateOutcome.ok)

/-- POST branch of `add()` from `app.py`: build the candidate post with
`next_id` and stripped fields; when any field is empty re-render with an
error (no append, no save), otherwise append it and save. -/
def add (posts : Store) (author title content : String) :
    Store × Bool × AddOutcome :=
  let post : Post :=
    { id := next_id posts
      author := strip author
      title := strip title
      content := strip content }
  if post.author = "" ∨ post.title = "" ∨ post.content = "" then
    (posts, false, AddOutcome.validationError)
  else
    (posts ++ [post], true, AddOutcome.created post)

/-- `delete(post_id)` from `app.py`: keep the posts whose id differs,
and call `save_posts` only when the length changed.  Returns the file
contents after the request and whether a save occurred. -/
def delete (posts : Store) (post_id : Int) : Store × Bool :=
  let new_posts := posts.filter (fun p => p.id != post_id)
  if new_posts.length ≠ posts.length then (new_posts, true)
  else (posts, false)

/-- `load_posts()` from `app.py`.  The backing file is modelled as
`Option Store`: `none` when the file does not exist, `some l` when it
exists and contains the JSON serialization of `l` (so `some []` is a
file containing `[]`).  When the file is absent the handler first writes
`"[]"`, then reads and parses the file; the result is the new file state
together with the parsed list. -/
def load_posts : Option Store → Option Store × Store
  | none => (some [], [])
  | some posts => (some posts, posts)

/-- The stores reachable from the empty store by any sequence of the
three mutating request handlers (each request loads the file, runs one
handler, and leaves the file holding the handler's result). -/
inductive Reachable : Store → Prop where
  | start : Reachable []
  | step_add (s : Store) (a t c : String) (r : Store × Bool × AddOutcome) :
      Reachable s → add s a t c = r → Reachable r.1
  | step_update (s : Store) (i : Int) (a t c : String)
      (r : Store × Bool × UpdateOutcome) :
      Reachable s → update s i a t c = r → Reachable r.1
  | step_delete (s : Store) (i : Int) (r : Store × Bool) :
      Reachable s → delete s i = r → Reachable r.1

/-- The list of ids of a store. -/
def ids (s : Store) : List Int := s.map Post.id

/-- A concrete store with ids 1, 2, 3, used to instantiate scenarios. -/
def store123 : Store :=
  [⟨1, "a1", "t1", "c1"⟩, ⟨2, "a2", "t2", "c2"⟩, ⟨3, "a3", "t3", "c3"⟩]

example : strip "  a b \t " = "a b" := by decide
example : next_id [⟨5, "a", "t", "c"⟩, ⟨2, "b", "u", "d"⟩] = 6 := by decide
example : next_id [] = 1 := by decide
example : next_id [⟨-5, "a", "t", "c"⟩] = -4 := by decide
example : find_post_index [⟨5, "a", "t", "c"⟩, ⟨2, "b", "u", "d"⟩] 2 = some 1 := by decide
example : delete [⟨5, "a", "t", "c"⟩, ⟨2, "b", "u", "d"⟩] 2 =
    ([⟨5, "a", "t", "c"⟩], true) := by decide
example : delete [⟨5, "a", "t", "c"⟩] 2 = ([⟨5, "a", "t", "c"⟩], false) := by decide
example : add [] " A " "T" "C" = ([⟨1, "A", "T", "C"⟩], true, .created ⟨1, "A", "T", "C"⟩) := by decide
example : add [] " " "T" "C" = ([], false, .validationError) := by decide
example : update [⟨1, "a", "t", "c"⟩] 1 "A" "B" "C" =
    ([⟨1, "A", "B", "C"⟩], true, .ok) := by decide
example : update [⟨1, "a", "t", "c"⟩] 2 "A" "B" "C" =
    ([⟨1, "a", "t", "c"⟩], false, .notFound) := by decide
example : update [⟨1, "a", "t", "c"⟩] 1 " " "B" "C" =
    ([⟨1, "a", "t", "c"⟩], false, .validationError) := by decide

/-! ### Helper lemmas -/

theorem add_eq (s : Store) (a t c : String) :
    add s a t c =
      if strip a = "" ∨ strip t = "" ∨ strip c = "" then
        (s, false, AddOutcome.validationError)
      else
        (s ++ [⟨next_id s, strip a, strip t, strip c⟩], true,
          AddOutcome.created ⟨next_id s, strip a, strip t, strip c⟩) := rfl

theorem delete_eq (s : Store) (i : Int) :
    delete s i =
      if (s.filter (fun p => p.id != i)).length ≠ s.length then
        (s.filter (fun p => p.id != i), true)
      else (s, false) := rfl

theorem find_post_index_none_iff (s : Store) (i : Int) :
    find_post_index s i = none ↔ ∀ p ∈ s, p.id ≠ i := by
  induction s with
  | nil => simp [find_post_index]
  | cons p ps ih =>
    by_cases h : p.id = i
    · simp [find_post_index, h]
    · simp [find_post_index, h, ih]

theorem find_post_index_some (s : Store) (i : Int) (idx : Nat)
    (h : find_post_index s i = some idx) :
    idx < s.length ∧ ∀ p, s[idx]? = some p → p.id = i := by
  induction s generalizing idx with
  | nil => simp [find_post_index] at h
  | cons q ps ih =>
    by_cases hq : q.id = i
    · simp only [find_post_index, if_pos hq, Option.some.injEq] at h
      subst h
      refine ⟨by simp, ?_⟩
      intro p hp
      simp only [List.getElem?_cons_zero, Option.some.injEq] at hp
      subst hp; exact hq
    · simp only [find_post_index, if_neg hq, Option.map_eq_some'] at h
      obtain ⟨n, hn, rfl⟩ := h
      obtain ⟨hlt, hget⟩ := ih n hn
      refine ⟨by simpa using Nat.succ_lt_succ hlt, ?_⟩
      intro p hp
      simp only [List.getElem?_cons_succ] at hp
      exact hget p hp

theorem update_at_length (s : Store) (idx : Nat) (a t c : String) :
    (update_at s idx a t c).length = s.length := by
  induction s generalizing idx with
  | nil => rfl
  | cons p ps ih =>
    cases idx with
    | zero => simp [update_at]
    | succ n => simp [update_at, ih]

theorem update_at_getElem_ne (s : Store) (idx j : Nat) (a t c : String)
    (h : j ≠ idx) : (update_at s idx a t c)[j]? = s[j]? := by
  induction s generalizing idx j with
  | nil => rfl
  | cons p ps ih =>
    cases idx with
    | zero =>
      cases j with
      | zero => exact absurd rfl h
      | succ m => simp [update_at]
    | succ n =>
      cases j with
      | zero => simp [update_at]
      | succ m =>
        simp only [update_at, List.getElem?_cons_succ]
        exact ih n m (by omega)

theorem update_at_getElem_eq (s : Store) (idx : Nat) (a t c : String) :
    (update_at s idx a t c)[idx]? =
      (s[idx]?).map (fun p => { p with author := a, title := t, content := c }) := by
  induction s generalizing idx with
  | nil => cases idx <;> rfl
  | cons p ps ih =>
    cases idx with
    | zero => simp [update_at]
    | succ n =>
      simp only [update_at, List.getElem?_cons_succ]
      exact ih n

theorem ids_update_at (s : Store) (idx : Nat) (a t c : String) :
    ids (update_at s idx a t c) = ids s := by
  induction s generalizing idx with
  | nil => rfl
  | cons p ps ih =>
    cases idx with
    | zero => simp [update_at, ids]
    | succ n => simpa [update_at, ids] using ih n

theorem le_foldl_max (l : List Int) (a : Int) : a ≤ l.foldl max a := by
  induction l generalizing a with
  | nil => exact le_refl a
  | cons x xs ih => exact le_trans (le_max_left a x) (ih (max a x))

theorem mem_le_foldl_max (l : List Int) (a x : Int) (h : x ∈ l) :
    x ≤ l.foldl max a := by
  induction l generalizing a with
  | nil => cases h
  | cons y ys ih =>
    rcases List.mem_cons.mp h with rfl | h'
    · exact le_trans (le_max_right a x) (le_foldl_max ys (max a x))
    · exact ih (max a y) h'

theorem foldl_max_le (l : List Int) (a b : Int) (ha : a ≤ b)
    (h : ∀ y ∈ l, y ≤ b) : l.foldl max a ≤ b := by
  induction l generalizing a with
  | nil => exact ha
  | cons y ys ih =>
    exact ih (max a y) (max_le ha (h y (List.mem_cons_self y ys)))
      (fun z hz => h z (List.mem_cons_of_mem y hz))

theorem mem_le_max_default (s : Store) (p : Post) (h : p ∈ s) :
    p.id ≤ max_default (ids s) 0 := by
  cases s with
  | nil => cases h
  | cons q ps =>
    simp only [ids, List.map_cons, max_default]
    rcases List.mem_cons.mp h with rfl | h'
    · exact le_foldl_max _ _
    · exact mem_le_foldl_max _ _ _ (List.mem_map_of_mem Post.id h')

theorem lt_next_id (s : Store) (p : Post) (h : p ∈ s) : p.id < next_id s := by
  have h1 := mem_le_max_default s p h
  simp only [ids] at h1
  simp only [next_id]
  omega

theorem max_default_eq_of (l : List Int) (x : Int) (hx : x ∈ l)
    (hub : ∀ y ∈ l, y ≤ x) : max_default l 0 = x := by
  cases l with
  | nil => cases hx
  | cons y ys =>
    simp only [max_default]
    apply le_antisymm
    · exact foldl_max_le ys y x (hub y (List.mem_cons_self y ys))
        (fun z hz => hub z (List.mem_cons_of_mem y hz))
    · rcases List.mem_cons.mp hx with rfl | h'
      · exact le_foldl_max _ _
      · exact mem_le_foldl_max _ _ _ h'

theorem add_created (s : Store) (a t c : String) (s' : Store) (sv : Bool)
    (p : Post) (h : add s a t c = (s', sv, AddOutcome.created p)) :
    s' = s ++ [p] ∧ sv = true ∧
      p = ⟨next_id s, strip a, strip t, strip c⟩ := by
  rw [add_eq] at h
  split at h
  · simp at h
  · simp only [Prod.mk.injEq, AddOutcome.created.injEq] at h
    obtain ⟨h1, h2, h3⟩ := h
    refine ⟨?_, h2.symm, h3.symm⟩
    rw [← h1, h3]

theorem filter_length_eq_iff (s : Store) (i : Int) :
    (s.filter (fun p => p.id != i)).length = s.length ↔ ∀ p ∈ s, p.id ≠ i := by
  constructor
  · intro h p hp
    have heq : s.filter (fun p => p.id != i) = s :=
      (List.filter_sublist s).eq_of_length h
    have hmem : p ∈ s.filter (fun p => p.id != i) := by rw [heq]; exact hp
    simpa using (List.mem_filter.mp hmem).2
  · intro h
    have heq : s.filter (fun p => p.id != i) = s := by
      apply List.filter_eq_self.mpr
      intro p hp
      simpa using h p hp
    rw [heq]

theorem delete_eq_of_none (s : Store) (i : Int) (h : ∀ p ∈ s, p.id ≠ i) :
    delete s i = (s, false) := by
  rw [delete_eq, if_neg]
  exact not_not.mpr ((filter_length_eq_iff s i).mpr h)

theorem delete_eq_of_mem (s : Store) (i : Int) (h : ∃ p ∈ s, p.id = i) :
    delete s i = (s.filter (fun p => p.id != i), true) := by
  rw [delete_eq, if_pos]
  intro heq
  obtain ⟨p, hp, hpi⟩ := h
  exact (filter_length_eq_iff s i).mp heq p hp hpi

theorem delete_fst (s : Store) (i : Int) :
    (delete s i).1 = s.filter (fun p => p.id != i) := by
  rw [delete_eq]
  split
  · rfl
  · next h =>
    have hlen : (s.filter (fun p => p.id != i)).length = s.length := not_not.mp h
    exact ((List.filter_sublist s).eq_of_length hlen).symm

theorem mem_delete_ne (s : Store) (i : Int) (p : Post)
    (h : p ∈ (delete s i).1) : p.id ≠ i := by
  rw [delete_fst] at h
  simpa using (List.mem_filter.mp h).2

theorem update_not_found (s : Store) (i : Int) (a t c : String)
    (h : find_post_index s i = none) :
    update s i a t c = (s, false, UpdateOutcome.notFound) := by
  simp [update, h]

theorem update_val_error (s : Store) (i : Int) (a t c : String) (idx : Nat)
    (hfind : find_post_index s i = some idx)
    (hblank : strip a = "" ∨ strip t = "" ∨ strip c = "") :
    update s i a t c = (s, false, UpdateOutcome.validationError) := by
  simp only [update, hfind]
  rw [if_pos hblank]

theorem update_ok (s : Store) (i : Int) (a t c : String) (idx : Nat)
    (hfind : find_post_index s i = some idx)
    (ha : strip a ≠ "") (ht : strip t ≠ "") (hc : strip c ≠ "") :
    update s i a t c =
      (update_at s idx (strip a) (strip t) (strip c), true, UpdateOutcome.ok) := by
  simp only [update, hfind]
  rw [if_neg]
  push_neg
  exact ⟨ha, ht, hc⟩

theorem dropWhile_eq_cons_false (p : Char → Bool) (l : List Char) (a : Char)
    (t : List Char) (h : l.dropWhile p = a :: t) : p a = false := by
  induction l with
  | nil => simp [List.dropWhile] at h
  | cons x xs ih =>
    rw [List.dropWhile_cons] at h
    by_cases hx : p x = true
    · rw [if_pos hx] at h
      exact ih h
    · rw [if_neg hx] at h
      injection h with h1 _
      subst h1
      simpa using hx

theorem stripList_idem (l : List Char) :
    stripList (stripList l) = stripList l := by
  unfold stripList
  have h1 : ((l.dropWhile isSpace).rdropWhile isSpace).dropWhile isSpace
      = (l.dropWhile isSpace).rdropWhile isSpace := by
    cases hr : (l.dropWhile isSpace).rdropWhile isSpace with
    | nil => rfl
    | cons ch rest =>
      have hpre : (l.dropWhile isSpace).rdropWhile isSpace <+: l.dropWhile isSpace :=
        List.rdropWhile_prefix _ _
      rw [hr] at hpre
      obtain ⟨r, hrr⟩ := hpre
      have hch : isSpace ch = false := by
        apply dropWhile_eq_cons_false isSpace l ch (rest ++ r)
        rw [← hrr]
        simp
      rw [List.dropWhile_cons, if_neg]
      simp [hch]
  rw [h1, List.rdropWhile_idempotent]

theorem strip_idem (s : String) : strip (strip s) = strip s := by
  show String.mk (stripList (stripList s.data)) = String.mk (stripList s.data)
  rw [stripList_idem]

theorem nodup_ids_add (s : Store) (a t c : String) (h : (ids s).Nodup) :
    (ids (add s a t c).1).Nodup := by
  rw [add_eq]
  split
  · exact h
  · simp only [ids, List.map_append, List.map_cons, List.map_nil]
    rw [List.nodup_append]
    refine ⟨h, List.nodup_singleton _, ?_⟩
    intro x hx hx'
    simp only [List.mem_singleton] at hx'
    subst hx'
    obtain ⟨p, hp, hpx⟩ := List.mem_map.mp hx
    have := lt_next_id s p hp
    omega

theorem ids_update_fst (s : Store) (i : Int) (a t c : String) :
    ids (update s i a t c).1 = ids s := by
  cases hfind : find_post_index s i with
  | none => simp only [update, hfind]
  | some idx =>
    simp only [update, hfind]
    split
    · rfl
    · exact ids_update_at s idx _ _ _

theorem delete_sublist (s : Store) (i : Int) : (delete s i).1.Sublist s := by
  rw [delete_fst]
  exact List.filter_sublist s

theorem nodup_ids_delete (s : Store) (i : Int) (h : (ids s).Nodup) :
    (ids (delete s i).1).Nodup := by
  have hsub : ids (delete s i).1 |>.Sublist (ids s) := by
    simp only [ids]
    exact (delete_sublist s i).map Post.id
  exact hsub.nodup h

theorem reachable_nodup (s : Store) (h : Reachable s) : (ids s).Nodup := by
  induction h with
  | start => simp [ids]
  | step_add s a t c r hr heq ih =>
    subst heq
    exact nodup_ids_add s a t c ih
  | step_update s i a t c r hr heq ih =>
    subst heq
    rw [ids_update_fst]
    exact ih
  | step_delete s i r hr heq ih =>
    subst heq
    exact nodup_ids_delete s i ih

/-! ### Claims -/

/-- C1: every store reachable from the empty store by create, update and
delete operations has pairwise distinct `id` values; moreover each
successful create assigns an id strictly greater than every id already in
the store (so across a create-only sequence the assigned ids are unique
and strictly increasing), and the created post is in the new store. -/
theorem c1_ids_unique_and_creates_increase (s : Store) (h : Reachable s) :
    (ids s).Nodup ∧
    ∀ (a t c : String) (s' : Store) (sv : Bool) (p : Post),
      add s a t c = (s', sv, AddOutcome.created p) →
      (∀ q ∈ s, q.id < p.id) ∧ p ∈ s' := by
  refine ⟨reachable_nodup s h, ?_⟩
  intro a t c s' sv p hadd
  obtain ⟨hs', hsv, hp⟩ := add_created s a t c s' sv p hadd
  constructor
  · intro q hq
    have hlt := lt_next_id s q hq
    rw [hp]
    exact hlt
  · rw [hs']
    simp

/-- Witness for C1 at a concrete reachable store (three creates). -/
theorem c1_witness : Reachable store123 ∧ (ids store123).Nodup := by
  have h1 : Reachable store123 := by
    have s1 := Reachable.step_add [] "a1" "t1" "c1"
      ([⟨1, "a1", "t1", "c1"⟩], true, AddOutcome.created ⟨1, "a1", "t1", "c1"⟩)
      Reachable.start (by decide)
    have s2 := Reachable.step_add [⟨1, "a1", "t1", "c1"⟩] "a2" "t2" "c2"
      ([⟨1, "a1", "t1", "c1"⟩, ⟨2, "a2", "t2", "c2"⟩], true,
        AddOutcome.created ⟨2, "a2", "t2", "c2"⟩)
      s1 (by decide)
    have s3 := Reachable.step_add
      [⟨1, "a1", "t1", "c1"⟩, ⟨2, "a2", "t2", "c2"⟩] "a3" "t3" "c3"
      (store123, true, AddOutcome.created ⟨3, "a3", "t3", "c3"⟩)
      s2 (by decide)
    exact s3
  exact ⟨h1, (c1_ids_unique_and_creates_increase store123 h1).1⟩

/-- C2: a successful create assigns `m + 1` where `m` is the maximum id
present in the store, and assigns `1` when the store is empty. -/
theorem c2_new_id_is_max_plus_one :
    (∀ (s : Store) (a t c : String) (s' : Store) (sv : Bool) (p : Post)
      (m : Int), (∃ q ∈ s, q.id = m) → (∀ q ∈ s, q.id ≤ m) →
      add s a t c = (s', sv, AddOutcome.created p) → p.id = m + 1) ∧
    (∀ (a t c : String) (s' : Store) (sv : Bool) (p : Post),
      add [] a t c = (s', sv, AddOutcome.created p) → p.id = 1) := by
  constructor
  · intro s a t c s' sv p m hmem hub hadd
    obtain ⟨-, -, hp⟩ := add_created s a t c s' sv p hadd
    obtain ⟨q, hq, hqm⟩ := hmem
    have hmax : max_default (ids s) 0 = m := by
      apply max_default_eq_of
      · rw [← hqm]
        exact List.mem_map_of_mem Post.id hq
      · intro y hy
        obtain ⟨q', hq', rfl⟩ := List.mem_map.mp hy
        exact hub q' hq'
    rw [hp]
    show next_id s = m + 1
    simp only [next_id]
    simp only [ids] at hmax
    omega
  · intro a t c s' sv p hadd
    obtain ⟨-, -, hp⟩ := add_created [] a t c s' sv p hadd
    rw [hp]
    rfl

/-- Witness for C2: a store with maximum id 5 assigns 6. -/
theorem c2_witness :
    add [⟨5, "x", "y", "z"⟩] "A" "T" "C" =
      ([⟨5, "x", "y", "z"⟩, ⟨6, "A", "T", "C"⟩], true,
        AddOutcome.created ⟨6, "A", "T", "C"⟩) ∧
    Post.id ⟨6, "A", "T", "C"⟩ = 5 + 1 :=
  ⟨by decide,
    c2_new_id_is_max_plus_one.1 [⟨5, "x", "y", "z"⟩] "A" "T" "C"
      [⟨5, "x", "y", "z"⟩, ⟨6, "A", "T", "C"⟩] true ⟨6, "A", "T", "C"⟩ 5
      (by decide) (by decide) (by decide)⟩

/-- C3 fails as stated: in the store with ids {1, 3} (maximum m = 3),
deleting the post with id 3 and then creating assigns id 2, not 3. -/
theorem c3_counterexample :
    max_default (ids [⟨1, "a", "t", "c"⟩, ⟨3, "b", "u", "d"⟩]) 0 = 3 ∧
    delete [⟨1, "a", "t", "c"⟩, ⟨3, "b", "u", "d"⟩] 3 =
      ([⟨1, "a", "t", "c"⟩], true) ∧
    add [⟨1, "a", "t", "c"⟩] "A" "T" "C" =
      ([⟨1, "a", "t", "c"⟩, ⟨2, "A", "T", "C"⟩], true,
        AddOutcome.created ⟨2, "A", "T", "C"⟩) ∧
    (2 : Int) ≠ 3 := by decide

/-- C3 (amended): when the store also contains a post with id `m - 1`,
deleting the maximum `m` and then creating successfully reassigns `m`;
and in the store with ids {1,2,3}, delete(2) leaves ids [1, 3] in order
and a subsequent successful create assigns id 4. -/
theorem c3_amended_reuse :
    (∀ (s : Store) (m : Int) (a t c : String) (s' : Store) (sv : Bool)
      (p : Post), (∀ q ∈ s, q.id ≤ m) → (∃ q ∈ s, q.id = m) →
      (∃ q ∈ s, q.id = m - 1) →
      add (delete s m).1 a t c = (s', sv, AddOutcome.created p) →
      p.id = m) ∧
    ids (delete store123 2).1 = [1, 3] ∧
    (∀ (a t c : String) (s' : Store) (sv : Bool) (p : Post),
      add (delete store123 2).1 a t c = (s', sv, AddOutcome.created p) →
      p.id = 4) := by
  refine ⟨?_, by decide, ?_⟩
  · intro s m a t c s' sv p hub hm hm1 hadd
    obtain ⟨-, -, hp⟩ := add_created _ a t c s' sv p hadd
    have hdel : (delete s m).1 = s.filter (fun q => q.id != m) := delete_fst s m
    have hmem : (m - 1) ∈ ids (delete s m).1 := by
      obtain ⟨q, hq, hq1⟩ := hm1
      rw [← hq1]
      apply List.mem_map_of_mem Post.id
      rw [hdel]
      refine List.mem_filter.mpr ⟨hq, ?_⟩
      simp only [bne_iff_ne, ne_eq]
      omega
    have hub' : ∀ y ∈ ids (delete s m).1, y ≤ m - 1 := by
      intro y hy
      obtain ⟨q', hq', rfl⟩ := List.mem_map.mp hy
      rw [hdel] at hq'
      obtain ⟨hq's, hq'ne⟩ := List.mem_filter.mp hq'
      have h1 := hub q' hq's
      have h2 : q'.id ≠ m := by simpa using hq'ne
      omega
    have hmax := max_default_eq_of (ids (delete s m).1) (m - 1) hmem hub'
    rw [hp]
    show next_id (delete s m).1 = m
    simp only [next_id]
    simp only [ids] at hmax
    omega
  · intro a t c s' sv p hadd
    obtain ⟨-, -, hp⟩ := add_created _ a t c s' sv p hadd
    rw [hp]
    show next_id (delete store123 2).1 = 4
    decide

/-- Witness for C3 (amended): store with ids {1, 2}, delete(2), create
reassigns 2. -/
theorem c3_amended_witness :
    add (delete [⟨1, "a", "t", "c"⟩, ⟨2, "b", "u", "d"⟩] 2).1 "A" "T" "C" =
      ([⟨1, "a", "t", "c"⟩, ⟨2, "A", "T", "C"⟩], true,
        AddOutcome.created ⟨2, "A", "T", "C"⟩) ∧
    Post.id ⟨2, "A", "T", "C"⟩ = 2 :=
  ⟨by decide,
    c3_amended_reuse.1 [⟨1, "a", "t", "c"⟩, ⟨2, "b", "u", "d"⟩] 2 "A" "T" "C"
      [⟨1, "a", "t", "c"⟩, ⟨2, "A", "T", "C"⟩] true ⟨2, "A", "T", "C"⟩
      (by decide) (by decide) (by decide) (by decide)⟩

/-- C4: when any field is empty after trimming, create signals a
validation error and leaves the store unchanged with no save. -/
theorem c4_create_validation (s : Store) (a t c : String)
    (h : strip a = "" ∨ strip t = "" ∨ strip c = "") :
    add s a t c = (s, false, AddOutcome.validationError) := by
  rw [add_eq, if_pos h]

/-- Witness for C4: whitespace-only author. -/
theorem c4_witness :
    (strip " " = "" ∨ strip "T" = "" ∨ strip "C" = "") ∧
    add store123 " " "T" "C" = (store123, false, AddOutcome.validationError) :=
  ⟨by decide, c4_create_validation store123 " " "T" "C" (by decide)⟩

/-- C5: update reports NotFound exactly when no post has the id; when a
post with the id exists but some submitted field is blank after trimming,
update signals a validation error and leaves the store unchanged with no
save. -/
theorem c5_update_errors (s : Store) (i : Int) (a t c : String) :
    ((update s i a t c).2.2 = UpdateOutcome.notFound ↔ ∀ p ∈ s, p.id ≠ i) ∧
    ((∃ p ∈ s, p.id = i) → (strip a = "" ∨ strip t = "" ∨ strip c = "") →
      update s i a t c = (s, false, UpdateOutcome.validationError)) := by
  constructor
  · constructor
    · intro h
      by_contra hc
      push_neg at hc
      obtain ⟨p, hp, hpi⟩ := hc
      cases hfind : find_post_index s i with
      | none => exact ((find_post_index_none_iff s i).mp hfind p hp) hpi
      | some idx =>
        by_cases hb : strip a = "" ∨ strip t = "" ∨ strip c = ""
        · rw [update_val_error s i a t c idx hfind hb] at h
          simp at h
        · push_neg at hb
          rw [update_ok s i a t c idx hfind hb.1 hb.2.1 hb.2.2] at h
          simp at h
    · intro h
      rw [update_not_found s i a t c ((find_post_index_none_iff s i).mpr h)]
  · intro hex hblank
    cases hfind : find_post_index s i with
    | none =>
      obtain ⟨p, hp, hpi⟩ := hex
      exact absurd hpi ((find_post_index_none_iff s i).mp hfind p hp)
    | some idx => exact update_val_error s i a t c idx hfind hblank

/-- Witness for C5: id 2 exists in the concrete store and a blank title
leaves it unchanged. -/
theorem c5_witness :
    (∃ p ∈ store123, Post.id p = 2) ∧
    (strip "A" = "" ∨ strip " " = "" ∨ strip "C" = "") ∧
    update store123 2 "A" " " "C" =
      (store123, false, UpdateOutcome.validationError) :=
  ⟨by decide, by decide,
    (c5_update_errors store123 2 "A" " " "C").2 (by decide) (by decide)⟩

/-- C6: a successful update replaces exactly the three text fields of the
post at the found index (keeping its id) and leaves every other position,
the length, and the order unchanged. -/
theorem c6_update_frame (s : Store) (i : Int) (a t c : String) (idx : Nat)
    (hfind : find_post_index s i = some idx)
    (ha : strip a ≠ "") (ht : strip t ≠ "") (hc : strip c ≠ "") :
    (update s i a t c).2.2 = UpdateOutcome.ok ∧
    (update s i a t c).1.length = s.length ∧
    (∀ j : Nat, j ≠ idx → ((update s i a t c).1)[j]? = s[j]?) ∧
    (∀ p : Post, s[idx]? = some p →
      ((update s i a t c).1)[idx]? =
        some ⟨p.id, strip a, strip t, strip c⟩) := by
  have hu := update_ok s i a t c idx hfind ha ht hc
  rw [hu]
  refine ⟨rfl, update_at_length s idx _ _ _, ?_, ?_⟩
  · intro j hj
    exact update_at_getElem_ne s idx j _ _ _ hj
  · intro p hp
    rw [update_at_getElem_eq, hp]
    rfl

/-- Witness for C6 at a concrete store and index. -/
theorem c6_witness :
    find_post_index store123 2 = some 1 ∧
    ((update store123 2 "A" "T" "C").2.2 = UpdateOutcome.ok ∧
      (update store123 2 "A" "T" "C").1.length = store123.length ∧
      (∀ j : Nat, j ≠ 1 →
        ((update store123 2 "A" "T" "C").1)[j]? = store123[j]?) ∧
      (∀ p : Post, store123[1]? = some p →
        ((update store123 2 "A" "T" "C").1)[1]? =
          some ⟨p.id, strip "A", strip "T", strip "C"⟩)) :=
  ⟨by decide,
    c6_update_frame store123 2 "A" "T" "C" 1 (by decide) (by decide)
      (by decide) (by decide)⟩

/-- C7: delete removes the posts with the given id, preserves the order
of the rest, saves exactly when something was removed, is a no-op without
a save when the id is absent, and is idempotent. -/
theorem c7_delete_behavior (s : Store) (i : Int) :
    (delete s i).1.Sublist s ∧
    (∀ p ∈ (delete s i).1, p.id ≠ i) ∧
    (∀ p ∈ s, p.id ≠ i → p ∈ (delete s i).1) ∧
    ((delete s i).2 = true ↔ ∃ p ∈ s, p.id = i) ∧
    ((∀ p ∈ s, p.id ≠ i) → delete s i = (s, false)) ∧
    delete (delete s i).1 i = ((delete s i).1, false) := by
  refine ⟨delete_sublist s i, fun p hp => mem_delete_ne s i p hp, ?_, ?_,
    delete_eq_of_none s i, ?_⟩
  · intro p hp hpi
    rw [delete_fst]
    exact List.mem_filter.mpr ⟨hp, by simpa using hpi⟩
  · constructor
    · intro h
      by_contra hc
      push_neg at hc
      rw [delete_eq_of_none s i hc] at h
      simp at h
    · intro hex
      rw [delete_eq_of_mem s i hex]
  · exact delete_eq_of_none _ i (fun p hp => mem_delete_ne s i p hp)

/-- Witness for C7 at a concrete store and an absent id. -/
theorem c7_witness :
    (delete store123 9).1.Sublist store123 ∧
    delete (delete store123 9).1 9 = ((delete store123 9).1, false) :=
  ⟨(c7_delete_behavior store123 9).1,
    (c7_delete_behavior store123 9).2.2.2.2.2⟩

/-- C8: when the backing file is absent, load creates it containing the
empty array and returns the empty sequence; afterwards the file exists
and contains `[]`. -/
theorem c8_load_creates_file : load_posts none = (some [], []) := rfl

/-- C9: delete removes every post whose id equals the given value, even
when several posts share that id, so the result contains none. -/
theorem c9_delete_removes_all (s : Store) (i : Int) :
    ∀ p ∈ (delete s i).1, p.id ≠ i :=
  fun p hp => mem_delete_ne s i p hp

/-- Witness for C9 on a store with a duplicated id. -/
theorem c9_witness :
    (⟨2, "x", "y", "z"⟩ : Post) ∈
      (delete [⟨1, "a", "t", "c"⟩, ⟨1, "b", "u", "d"⟩, ⟨2, "x", "y", "z"⟩] 1).1 ∧
    Post.id ⟨2, "x", "y", "z"⟩ ≠ 1 :=
  ⟨by decide,
    c9_delete_removes_all
      [⟨1, "a", "t", "c"⟩, ⟨1, "b", "u", "d"⟩, ⟨2, "x", "y", "z"⟩] 1
      ⟨2, "x", "y", "z"⟩ (by decide)⟩

/-- C10: every field persisted by a successful create or update equals
the submitted input with surrounding whitespace removed, and therefore
carries no leading or trailing whitespace (stripping it again is the
identity). -/
theorem c10_fields_trimmed :
    (∀ (s : Store) (a t c : String) (s' : Store) (sv : Bool) (p : Post),
      add s a t c = (s', sv, AddOutcome.created p) →
      p.author = strip a ∧ p.title = strip t ∧ p.content = strip c ∧
      strip p.author = p.author ∧ strip p.title = p.title ∧
      strip p.content = p.content) ∧
    (∀ (s : Store) (i : Int) (a t c : String) (idx : Nat),
      find_post_index s i = some idx →
      (update s i a t c).2.2 = UpdateOutcome.ok →
      ∀ q : Post, ((update s i a t c).1)[idx]? = some q →
        q.author = strip a ∧ q.title = strip t ∧ q.content = strip c ∧
        strip q.author = q.author ∧ strip q.title = q.title ∧
        strip q.content = q.content) := by
  constructor
  · intro s a t c s' sv p hadd
    obtain ⟨-, -, hp⟩ := add_created s a t c s' sv p hadd
    subst hp
    exact ⟨rfl, rfl, rfl, strip_idem a, strip_idem t, strip_idem c⟩
  · intro s i a t c idx hfind hok q hq
    by_cases hb : strip a = "" ∨ strip t = "" ∨ strip c = ""
    · rw [update_val_error s i a t c idx hfind hb] at hok
      simp at hok
    · push_neg at hb
      rw [update_ok s i a t c idx hfind hb.1 hb.2.1 hb.2.2] at hq
      rw [update_at_getElem_eq] at hq
      obtain ⟨p0, hp0, hfq⟩ := Option.map_eq_some'.mp hq
      subst hfq
      exact ⟨rfl, rfl, rfl, strip_idem a, strip_idem t, strip_idem c⟩

/-- Witness for C10: a create whose author input has surrounding blanks. -/
theorem c10_witness :
    add [] " A " "T" "C" =
      ([⟨1, "A", "T", "C"⟩], true, AddOutcome.created ⟨1, "A", "T", "C"⟩) ∧
    (Post.author ⟨1, "A", "T", "C"⟩ = strip " A " ∧
      Post.title ⟨1, "A", "T", "C"⟩ = strip "T" ∧
      Post.content ⟨1, "A", "T", "C"⟩ = strip "C" ∧
      strip (Post.author ⟨1, "A", "T", "C"⟩) = Post.author ⟨1, "A", "T", "C"⟩ ∧
      strip (Post.title ⟨1, "A", "T", "C"⟩) = Post.title ⟨1, "A", "T", "C"⟩ ∧
      strip (Post.content ⟨1, "A", "T", "C"⟩) = Post.content ⟨1, "A", "T", "C"⟩) :=
  ⟨by decide,
    c10_fields_trimmed.1 [] " A " "T" "C" [⟨1, "A", "T", "C"⟩] true
      ⟨1, "A", "T", "C"⟩ (by decide)⟩

end BlogApp
